import Mathlib

/-!
Verification of the log-analyser core (src/src/App.jsx).

The program parses a header-keyed CSV into rows, resolves the
date/time/status columns case-insensitively, and performs a single
left-to-right pass over the rows extracting maximal runs of rows whose
normalized status is "failure" into failure blocks.  The blocks can be
projected back to CSV rows for download.

The shallow embedding below mirrors the JavaScript source:
  - a parsed row (a JS object keyed by header strings) is an association
    list from header name to field value; an absent key models an
    undefined property;
  - the three mutable locals currentBlockStartTime / currentBlockEndTime /
    currentDate of processLogData are always all null or all non-null
    (they are assigned and cleared together), so they are modelled as a
    single Option OpenBlock;
  - the forEach loop is a List.foldl over the row sequence and the
    post-loop unclosed-block push is the final flush;
  - setLogData / setErrorMessage state updates are modelled as a function
    from the component state to the new component state;
  - JavaScript truthiness of a string field (row[key] ? a : b) is the
    test against the empty string, since PapaParse header-mode fields are
    strings (undefined when the physical row is short, modelled by none);
  - Array.prototype.findIndex with its -1 sentinel is findIndexFrom with
    an Option Nat result (none plays -1).
-/

namespace LogAnalyser

/-- A parsed CSV row in header mode: an association list from header name
to field value.  A missing key models a JS undefined property. -/
abbrev Row : Type := List (String × String)

/-- Property access row[key]: the value at the first matching key, if any. -/
def rowLookup (row : Row) (key : String) : Option String :=
  (List.find? (fun p => p.1 == key) row).map (fun p => p.2)

/-- String.prototype.trim: drop leading and trailing whitespace.  Written
over the character list so that concrete applications reduce. -/
def jsTrim (s : String) : String :=
  ⟨((s.data.dropWhile Char.isWhitespace).reverse.dropWhile Char.isWhitespace).reverse⟩

/-- String.prototype.toLowerCase, character by character. -/
def jsToLower (s : String) : String :=
  ⟨s.data.map Char.toLower⟩

/-- Embeds date/time extraction:
row[headers[idx]] ? String(row[headers[idx]]).trim() : '-'.
An absent or empty (falsy) field yields the placeholder "-". -/
def extractField (row : Row) (key : String) : String :=
  match rowLookup row key with
  | some s => if s = "" then "-" else jsTrim s
  | none => "-"

/-- Embeds status extraction:
row[headers[idx]] ? String(row[headers[idx]]).trim().toLowerCase() : ''. -/
def extractStatus (row : Row) (key : String) : String :=
  match rowLookup row key with
  | some s => if s = "" then "" else jsToLower (jsTrim s)
  | none => ""

/-- An emitted failure block. -/
structure Block where
  status : String
  date : String
  startTime : String
  endTime : String
deriving DecidableEq, Repr

/-- The currently open block: the three loop locals
currentBlockStartTime, currentBlockEndTime, currentDate when non-null. -/
structure OpenBlock where
  startTime : String
  endTime : String
  date : String
deriving DecidableEq, Repr

/-- State threaded through the forEach loop: the accumulator array
processedFailureBlocks and the open block (none = the three locals are null). -/
structure SegState where
  blocks : List Block
  openBlock : Option OpenBlock
deriving DecidableEq, Repr

/-- Builds the object pushed onto processedFailureBlocks. -/
def mkBlock (label : String) (ob : OpenBlock) : Block :=
  { status := label, date := ob.date, startTime := ob.startTime, endTime := ob.endTime }

/-- One iteration of the forEach loop of processLogData. -/
def segStep (dateKey timeKey statusKey : String) (st : SegState) (row : Row) : SegState :=
  let date := extractField row dateKey
  let time := extractField row timeKey
  let status := extractStatus row statusKey
  if status = "failure" then
    match st.openBlock with
    | none =>
      { st with openBlock := some { startTime := time, endTime := time, date := date } }
    | some ob =>
      { st with openBlock := some { ob with endTime := time } }
  else
    match st.openBlock with
    | some ob =>
      { blocks := st.blocks ++ [mkBlock "Failure Block" ob], openBlock := none }
    | none => st

/-- The post-loop push of a still-open block, with the diverging label. -/
def segFlush (st : SegState) : List Block :=
  match st.openBlock with
  | some ob => st.blocks ++ [mkBlock "Failure Block (No trailing OK)" ob]
  | none => st.blocks

/-- Loop entry state: empty accumulator, all three locals null. -/
def initState : SegState := { blocks := [], openBlock := none }

/-- The core segmentation pass of processLogData, after column resolution:
fold the loop body over the rows, then flush. -/
def segment (dateKey timeKey statusKey : String) (data : List Row) : List Block :=
  segFlush (data.foldl (segStep dateKey timeKey statusKey) initState)

/-- The predicate headers.findIndex is called with:
header.toLowerCase().trim() === name. -/
def headerMatches (name : String) (h : String) : Bool :=
  jsTrim (jsToLower h) == name

/-- Array.prototype.findIndex, index-threaded (none is the -1 sentinel). -/
def findIndexFrom (p : String → Bool) : List String → Nat → Option Nat
  | [], _ => none
  | h :: t, i => if p h then some i else findIndexFrom p t (i + 1)

/-- Array.prototype.findIndex with an Option result instead of -1. -/
def findIndex (p : String → Bool) (l : List String) : Option Nat :=
  findIndexFrom p l 0

/-- The React component state touched by processLogData / handleDownloadCsv. -/
structure AppState where
  logData : List Block
  fileName : String
  errorMessage : String
deriving DecidableEq, Repr

/-- The missing-columns error message. -/
def missingColumnsMessage : String :=
  "CSV must contain \"Date\", \"Time\", and \"Status\" columns in its header."

/-- The zero-blocks informational message. -/
def noFailureBlocksMessage : String :=
  "No failure blocks found in the uploaded file."

/-- processLogData(data, headers): resolve the three columns; on failure set
the error message and clear logData; otherwise segment and set logData,
reporting the zero-blocks condition when a file name is present. -/
def processLogData (st : AppState) (data : List Row) (headers : List String) : AppState :=
  let dateIndex := findIndex (headerMatches "date") headers
  let timeIndex := findIndex (headerMatches "time") headers
  let statusIndex := findIndex (headerMatches "status") headers
  match dateIndex, timeIndex, statusIndex with
  | some di, some ti, some si =>
    let blocks := segment (headers.getD di "") (headers.getD ti "") (headers.getD si "") data
    { st with
      logData := blocks
      errorMessage :=
        if blocks.length = 0 ∧ st.fileName ≠ "" then noFailureBlocksMessage else "" }
  | _, _, _ =>
    { st with errorMessage := missingColumnsMessage, logData := [] }

/-- The fixed CSV header row of handleDownloadCsv. -/
def csvHeaderRow : List String := ["Status", "date", "Start Time", "End Time"]

/-- The per-block export row: [block.status, block.date, block.startTime, block.endTime]. -/
def blockToRow (b : Block) : List String :=
  [b.status, b.date, b.startTime, b.endTime]

/-- The csvData array built by handleDownloadCsv. -/
def csvData (blocks : List Block) : List (List String) :=
  csvHeaderRow :: blocks.map blockToRow

/-- Re-tokenizing an export row back into a block: positional field reads. -/
def readBlockRow (r : List String) : Block :=
  { status := r.getD 0 "", date := r.getD 1 "", startTime := r.getD 2 "", endTime := r.getD 3 "" }

/-- handleDownloadCsv: on empty logData return with no download; otherwise
emit the export document (file name and rows).  It never mutates state. -/
def handleDownloadCsv (st : AppState) : AppState × Option (String × List (List String)) :=
  if st.logData.length = 0 then (st, none)
  else (st, some ("logging_file.csv", csvData st.logData))

/-- Does this row count as a failure row for the segmentation pass? -/
def isFailRow (statusKey : String) (row : Row) : Bool :=
  extractStatus row statusKey == "failure"

/-- Counts maximal runs of true in a boolean trace, given the previous value. -/
def countRunsAux : Bool → List Bool → Nat
  | _, [] => 0
  | prev, b :: rest => (if b && !prev then 1 else 0) + countRunsAux b rest

/-- Number of maximal runs of consecutive true entries. -/
def countTrueRuns (l : List Bool) : Nat := countRunsAux false l

/-- Fixture row with a non-failure status, for the concrete witnesses. -/
def okRow : Row := [("Status", "OK"), ("Time", "08:00"), ("Date", "01-01-2024")]

/-- Fixture row with a failure status, for the concrete witnesses. -/
def failRow : Row := [("Status", "Failure"), ("Time", "08:05"), ("Date", "01-01-2024")]

/-! ### Lemmas about one loop iteration -/

lemma isFailRow_iff (sk : String) (row : Row) :
    isFailRow sk row = true ↔ extractStatus row sk = "failure" := by
  simp [isFailRow]

lemma isFailRow_iff_not (sk : String) (row : Row) :
    isFailRow sk row = false ↔ ¬ extractStatus row sk = "failure" := by
  simp [isFailRow]

lemma segStep_fail_none (dk tk sk : String) (row : Row)
    (h : isFailRow sk row = true) (B : List Block) :
    segStep dk tk sk ⟨B, none⟩ row =
      ⟨B, some ⟨extractField row tk, extractField row tk, extractField row dk⟩⟩ := by
  rw [isFailRow_iff] at h
  simp [segStep, h]

lemma segStep_fail_some (dk tk sk : String) (row : Row)
    (h : isFailRow sk row = true) (B : List Block) (ob : OpenBlock) :
    segStep dk tk sk ⟨B, some ob⟩ row =
      ⟨B, some ⟨ob.startTime, extractField row tk, ob.date⟩⟩ := by
  rw [isFailRow_iff] at h
  simp [segStep, h]

lemma segStep_ok_some (dk tk sk : String) (row : Row)
    (h : isFailRow sk row = false) (B : List Block) (ob : OpenBlock) :
    segStep dk tk sk ⟨B, some ob⟩ row =
      ⟨B ++ [mkBlock "Failure Block" ob], none⟩ := by
  rw [isFailRow_iff_not] at h
  simp [segStep, h]

lemma segStep_ok_none (dk tk sk : String) (row : Row)
    (h : isFailRow sk row = false) (B : List Block) :
    segStep dk tk sk ⟨B, none⟩ row = ⟨B, none⟩ := by
  rw [isFailRow_iff_not] at h
  simp [segStep, h]

/-! ### Lemmas about the whole pass -/

lemma segFlush_length (st : SegState) :
    (segFlush st).length = st.blocks.length + (if st.openBlock.isSome then 1 else 0) := by
  rcases st with ⟨B, o⟩
  cases o <;> simp [segFlush]

lemma segFlush_split (B : List Block) (o : Option OpenBlock) :
    segFlush ⟨B, o⟩ = B ++ segFlush ⟨[], o⟩ := by
  cases o <;> simp [segFlush]

lemma segFold_count (dk tk sk : String) (data : List Row) : ∀ (B : List Block) (o : Option OpenBlock),
    (List.foldl (segStep dk tk sk) ⟨B, o⟩ data).blocks.length
      + (if (List.foldl (segStep dk tk sk) ⟨B, o⟩ data).openBlock.isSome then 1 else 0)
    = B.length + (if o.isSome then 1 else 0) + countRunsAux o.isSome (data.map (isFailRow sk)) := by
  induction data with
  | nil => intro B o; simp [countRunsAux]
  | cons r rest ih =>
    intro B o
    rw [List.foldl_cons, List.map_cons]
    cases hf : isFailRow sk r with
    | true =>
      cases o with
      | none =>
        rw [segStep_fail_none dk tk sk r hf B, ih]
        simp [countRunsAux, hf]
        all_goals omega
      | some ob =>
        rw [segStep_fail_some dk tk sk r hf B ob, ih]
        simp [countRunsAux, hf]
    | false =>
      cases o with
      | none =>
        rw [segStep_ok_none dk tk sk r hf B, ih]
        simp [countRunsAux, hf]
      | some ob =>
        rw [segStep_ok_some dk tk sk r hf B ob, ih]
        simp [countRunsAux, hf]

lemma segFold_openBlock (dk tk sk : String) (data : List Row) : ∀ (B : List Block) (o : Option OpenBlock),
    (List.foldl (segStep dk tk sk) ⟨B, o⟩ data).openBlock.isSome
      = (data.map (isFailRow sk)).getLastD o.isSome := by
  induction data with
  | nil => intro B o; simp
  | cons r rest ih =>
    intro B o
    rw [List.foldl_cons, List.map_cons, List.getLastD_cons]
    cases hf : isFailRow sk r with
    | true =>
      cases o with
      | none => rw [segStep_fail_none dk tk sk r hf B, ih]; simp
      | some ob => rw [segStep_fail_some dk tk sk r hf B ob, ih]; simp
    | false =>
      cases o with
      | none => rw [segStep_ok_none dk tk sk r hf B, ih]; simp
      | some ob => rw [segStep_ok_some dk tk sk r hf B ob, ih]; simp

lemma segFold_status (dk tk sk : String) (data : List Row) : ∀ (B : List Block) (o : Option OpenBlock)
    (b : Block), b ∈ (List.foldl (segStep dk tk sk) ⟨B, o⟩ data).blocks →
      b ∈ B ∨ b.status = "Failure Block" := by
  induction data with
  | nil => intro B o b hb; exact Or.inl (by simpa using hb)
  | cons r rest ih =>
    intro B o b hb
    rw [List.foldl_cons] at hb
    cases hf : isFailRow sk r with
    | true =>
      cases o with
      | none => rw [segStep_fail_none dk tk sk r hf B] at hb; exact ih _ _ _ hb
      | some ob => rw [segStep_fail_some dk tk sk r hf B ob] at hb; exact ih _ _ _ hb
    | false =>
      cases o with
      | none => rw [segStep_ok_none dk tk sk r hf B] at hb; exact ih _ _ _ hb
      | some ob =>
        rw [segStep_ok_some dk tk sk r hf B ob] at hb
        rcases ih _ _ _ hb with h | h
        · rcases List.mem_append.mp h with h | h
          · exact Or.inl h
          · right
            have hb' : b = mkBlock "Failure Block" ob := by simpa using h
            rw [hb', mkBlock]
        · exact Or.inr h

lemma segFold_split (dk tk sk : String) (data : List Row) : ∀ (B : List Block) (o : Option OpenBlock),
    List.foldl (segStep dk tk sk) ⟨B, o⟩ data =
      ⟨B ++ (List.foldl (segStep dk tk sk) ⟨[], o⟩ data).blocks,
       (List.foldl (segStep dk tk sk) ⟨[], o⟩ data).openBlock⟩ := by
  induction data with
  | nil => intro B o; simp
  | cons r rest ih =>
    intro B o
    rw [List.foldl_cons, List.foldl_cons]
    cases hf : isFailRow sk r with
    | true =>
      cases o with
      | none => rw [segStep_fail_none dk tk sk r hf B, segStep_fail_none dk tk sk r hf [], ih]
      | some ob => rw [segStep_fail_some dk tk sk r hf B ob, segStep_fail_some dk tk sk r hf [] ob, ih]
    | false =>
      cases o with
      | none => rw [segStep_ok_none dk tk sk r hf B, segStep_ok_none dk tk sk r hf [], ih]
      | some ob =>
        rw [segStep_ok_some dk tk sk r hf B ob, segStep_ok_some dk tk sk r hf [] ob]
        rw [ih (B ++ [mkBlock "Failure Block" ob]) none, ih ([] ++ [mkBlock "Failure Block" ob]) none]
        simp

lemma getLastD_map_getD {α β : Type} (f : α → β) (l : List α) (d : β) :
    (l.map f).getLastD d = (l.getLast?.map f).getD d := by
  rw [List.getLastD_eq_getLast?, List.getLast?_map]

lemma getLastD_map_comm {α β : Type} (f : α → β) (l : List α) (d : α) :
    (l.map f).getLastD (f d) = f (l.getLastD d) := by
  rw [getLastD_map_getD, List.getLastD_eq_getLast?]
  cases l.getLast? <;> rfl

lemma countTrueRuns_eq_zero (l : List Bool) :
    countTrueRuns l = 0 ↔ ∀ b ∈ l, b = false := by
  induction l with
  | nil => simp [countTrueRuns, countRunsAux]
  | cons b rest ih =>
    cases b with
    | false =>
      rw [countTrueRuns, countRunsAux] at *
      simpa using ih
    | true =>
      rw [countTrueRuns, countRunsAux]
      constructor
      · intro h; simp at h
      · intro h; exact absurd (h true (by simp)) (by simp)

lemma segFold_allFail_some (dk tk sk : String) (tl : List Row) :
    ∀ (B : List Block) (ob : OpenBlock), (∀ r ∈ tl, isFailRow sk r = true) →
      List.foldl (segStep dk tk sk) ⟨B, some ob⟩ tl =
        ⟨B, some ⟨ob.startTime, (tl.map (fun r => extractField r tk)).getLastD ob.endTime, ob.date⟩⟩ := by
  induction tl with
  | nil => intro B ob h; simp
  | cons r rest ih =>
    intro B ob h
    rw [List.foldl_cons, segStep_fail_some dk tk sk r (h r (by simp)) B ob]
    rw [ih B _ (fun x hx => h x (by simp [hx]))]
    rw [List.map_cons, List.getLastD_cons]

lemma segFold_allFail_none (dk tk sk : String) (h1 : Row) (tl : List Row) (B : List Block)
    (hall : ∀ r ∈ h1 :: tl, isFailRow sk r = true) :
    List.foldl (segStep dk tk sk) ⟨B, none⟩ (h1 :: tl) =
      ⟨B, some ⟨extractField h1 tk, extractField (tl.getLastD h1) tk, extractField h1 dk⟩⟩ := by
  rw [List.foldl_cons, segStep_fail_none dk tk sk h1 (hall h1 (by simp)) B]
  rw [segFold_allFail_some dk tk sk tl B _ (fun x hx => hall x (by simp [hx]))]
  rw [show ((tl.map (fun r => extractField r tk)).getLastD (extractField h1 tk))
        = extractField (tl.getLastD h1) tk from getLastD_map_comm (fun r => extractField r tk) tl h1]

lemma getElem?_append_cons {α : Type} (l : List α) (x : α) (r : List α) :
    (l ++ x :: r)[l.length]? = some x := by
  rw [List.getElem?_append_right (Nat.le_refl _), Nat.sub_self]
  simp

lemma findIndexFrom_eq_none (p : String → Bool) (l : List String) : ∀ i : Nat,
    findIndexFrom p l i = none ↔ ∀ h ∈ l, p h = false := by
  induction l with
  | nil => intro i; simp [findIndexFrom]
  | cons h t ih =>
    intro i
    by_cases hp : p h
    · simp [findIndexFrom, hp]
    · simp [findIndexFrom, hp, ih (i + 1)]

lemma findIndexFrom_append (p : String → Bool) (pre : List String) :
    ∀ (rest : List String) (i : Nat), (∀ h ∈ pre, p h = false) →
      findIndexFrom p (pre ++ rest) i = findIndexFrom p rest (pre.length + i) := by
  induction pre with
  | nil => intro rest i _; simp [findIndexFrom]
  | cons h t ih =>
    intro rest i hall
    rw [List.cons_append,
      show findIndexFrom p (h :: (t ++ rest)) i
          = if p h then some i else findIndexFrom p (t ++ rest) (i + 1) from rfl,
      if_neg (by simp [hall h (by simp)]),
      ih rest (i + 1) (fun x hx => hall x (by simp [hx]))]
    congr 1
    simp [List.length_cons]
    omega

/-! ### Claim theorems -/

/-- C1: for every row sequence, the number of blocks emitted by the segmenter
equals the number of maximal runs of consecutive rows whose normalized status
is "failure", and the output is empty iff no row has status "failure". -/
theorem segment_count_matches_failure_runs (dk tk sk : String) (data : List Row) :
    (segment dk tk sk data).length = countTrueRuns (data.map (isFailRow sk)) ∧
    (segment dk tk sk data = [] ↔ ∀ r ∈ data, isFailRow sk r = false) := by
  have hlen : (segment dk tk sk data).length = countTrueRuns (data.map (isFailRow sk)) := by
    have hc := segFold_count dk tk sk data [] none
    unfold segment
    rw [segFlush_length]
    simpa [countTrueRuns, initState] using hc
  refine ⟨hlen, ?_⟩
  rw [← List.length_eq_zero, hlen, countTrueRuns_eq_zero]
  constructor
  · intro h r hr; exact h _ (List.mem_map_of_mem _ hr)
  · intro h b hb
    rcases List.mem_map.mp hb with ⟨r, hr, rfl⟩
    exact h r hr

/-- C6: the export projection produces the fixed header row followed by one
row per block, in order and unfiltered, and re-tokenizing the projected rows
recovers the original blocks field by field. -/
theorem csvData_round_trip (blocks : List Block) :
    csvData blocks = csvHeaderRow :: blocks.map blockToRow ∧
    (csvData blocks).length = blocks.length + 1 ∧
    (csvData blocks).head? = some ["Status", "date", "Start Time", "End Time"] ∧
    (csvData blocks).tail = blocks.map blockToRow ∧
    ((csvData blocks).tail).map readBlockRow = blocks := by
  refine ⟨rfl, by simp [csvData], rfl, rfl, ?_⟩
  show (blocks.map blockToRow).map readBlockRow = blocks
  induction blocks with
  | nil => rfl
  | cons b t ih => simp [ih, readBlockRow, blockToRow]

/-- C8: segmentation is deterministic; two runs on the same row sequence agree
as values, in length and at every index. -/
theorem segment_deterministic (dk tk sk : String) (data : List Row) :
    segment dk tk sk data = segment dk tk sk data ∧
    (segment dk tk sk data).length = (segment dk tk sk data).length ∧
    ∀ i : Nat, (segment dk tk sk data)[i]? = (segment dk tk sk data)[i]? :=
  ⟨rfl, rfl, fun _ => rfl⟩

/-- C9: a present but all-whitespace date/time field extracts to "" and not to
the "-" placeholder; the placeholder is substituted exactly for an absent or
empty-before-trimming field. -/
theorem extractField_whitespace_placeholder (row : Row) (key s : String) :
    (rowLookup row key = some s → s ≠ "" → extractField row key = jsTrim s) ∧
    (rowLookup row key = some s → s ≠ "" → jsTrim s = "" →
      extractField row key = "" ∧ extractField row key ≠ "-") ∧
    ((rowLookup row key = none ∨ rowLookup row key = some "") →
      extractField row key = "-") := by
  refine ⟨?_, ?_, ?_⟩
  · intro hl hne
    simp [extractField, hl, hne]
  · intro hl hne ht
    have hf : extractField row key = "" := by simp [extractField, hl, hne, ht]
    refine ⟨hf, ?_⟩
    rw [hf]
    decide
  · rintro (hl | hl) <;> simp [extractField, hl]

/-- Witness for C9 at a whitespace-only field and an empty field. -/
theorem extractField_whitespace_placeholder_witness :
    extractField [("date", " ")] "date" = "" ∧
    extractField [("date", " ")] "date" ≠ "-" ∧
    extractField [("time", "")] "time" = "-" := by
  have h := (extractField_whitespace_placeholder [("date", " ")] "date" " ").2.1
    (by decide) (by decide) (by decide)
  have hempty := (extractField_whitespace_placeholder [("time", "")] "time" "").2.2
    (Or.inr (by decide))
  exact ⟨h.1, h.2, hempty⟩

/-- C10: with an empty block sequence the CSV download operation is a no-op:
state is unchanged and no export document is produced. -/
theorem handleDownloadCsv_empty_noop (st : AppState) (h : st.logData = []) :
    handleDownloadCsv st = (st, none) := by
  simp [handleDownloadCsv, h]

/-- Witness for C10 at a concrete empty state. -/
theorem handleDownloadCsv_empty_noop_witness :
    handleDownloadCsv ⟨[], "log.csv", ""⟩ = (⟨[], "log.csv", ""⟩, none) :=
  handleDownloadCsv_empty_noop ⟨[], "log.csv", ""⟩ rfl

/-- C5: column resolution is case-insensitive and whitespace-trimming; the
headers " Date ", "DATE" and "date" placed at the same position resolve to the
same index, and the sentinel comes back exactly when no header normalizes to
the requested field name. -/
theorem findIndex_resolution_insensitive :
    (∀ (pre post : List String), (∀ h ∈ pre, headerMatches "date" h = false) →
      findIndex (headerMatches "date") (pre ++ " Date " :: post) = some pre.length ∧
      findIndex (headerMatches "date") (pre ++ "DATE" :: post) = some pre.length ∧
      findIndex (headerMatches "date") (pre ++ "date" :: post) = some pre.length) ∧
    (∀ (headers : List String) (name : String),
      findIndex (headerMatches name) headers = none ↔
        ∀ h ∈ headers, ¬(jsTrim (jsToLower h) = name)) := by
  constructor
  · intro pre post hall
    refine ⟨?_, ?_, ?_⟩
    · rw [findIndex, findIndexFrom_append _ pre _ 0 hall]
      have hm : headerMatches "date" " Date " = true := by decide
      simp [findIndexFrom, hm]
    · rw [findIndex, findIndexFrom_append _ pre _ 0 hall]
      have hm : headerMatches "date" "DATE" = true := by decide
      simp [findIndexFrom, hm]
    · rw [findIndex, findIndexFrom_append _ pre _ 0 hall]
      have hm : headerMatches "date" "date" = true := by decide
      simp [findIndexFrom, hm]
  · intro headers name
    rw [findIndex, findIndexFrom_eq_none]
    simp [headerMatches]

/-- Witness for C5: the three spellings of the date header resolve to index 1
after a non-matching header. -/
theorem findIndex_resolution_insensitive_witness :
    findIndex (headerMatches "date") (["Time"] ++ " Date " :: ["Status"]) = some 1 ∧
    findIndex (headerMatches "date") (["Time"] ++ "DATE" :: ["Status"]) = some 1 ∧
    findIndex (headerMatches "date") (["Time"] ++ "date" :: ["Status"]) = some 1 :=
  findIndex_resolution_insensitive.1 ["Time"] ["Status"] (by decide)

/-- C4: if any of the three required columns cannot be resolved, no
segmentation is attempted: the result state has zero blocks, prior results
are cleared, and the missing-columns message is set, distinct from both the
zero-blocks message and the no-error state. -/
theorem processLogData_missing_columns (st : AppState) (data : List Row) (headers : List String)
    (h : findIndex (headerMatches "date") headers = none ∨
         findIndex (headerMatches "time") headers = none ∨
         findIndex (headerMatches "status") headers = none) :
    processLogData st data headers =
      { st with logData := [], errorMessage := missingColumnsMessage } ∧
    missingColumnsMessage ≠ noFailureBlocksMessage ∧
    missingColumnsMessage ≠ "" := by
  refine ⟨?_, by decide, by decide⟩
  cases hd : findIndex (headerMatches "date") headers with
  | none => simp [processLogData, hd]
  | some di =>
    cases ht : findIndex (headerMatches "time") headers with
    | none => simp [processLogData, hd, ht]
    | some ti =>
      cases hs : findIndex (headerMatches "status") headers with
      | none => simp [processLogData, hd, ht, hs]
      | some si =>
        exfalso
        rcases h with h | h | h
        · rw [hd] at h; exact Option.noConfusion h
        · rw [ht] at h; exact Option.noConfusion h
        · rw [hs] at h; exact Option.noConfusion h

/-- Witness for C4 at a header row with no status column. -/
theorem processLogData_missing_columns_witness :
    processLogData ⟨[⟨"Failure Block", "d", "a", "b"⟩], "log.csv", ""⟩ [] ["Date", "Time"] =
      ⟨[], "log.csv", missingColumnsMessage⟩ ∧
    missingColumnsMessage ≠ noFailureBlocksMessage ∧
    missingColumnsMessage ≠ "" :=
  processLogData_missing_columns ⟨[⟨"Failure Block", "d", "a", "b"⟩], "log.csv", ""⟩ [] ["Date", "Time"]
    (Or.inr (Or.inr (by decide)))

/-- C7: the segmenter is total over any row sequence; a row with a missing
status field extracts to the empty string, which is not "failure", so such a
row closes any open block and otherwise leaves the state unchanged. -/
theorem segment_total_missing_status (dk tk sk : String) (data : List Row)
    (st : SegState) (row : Row) (h : rowLookup row sk = none) :
    (∃ bs, segment dk tk sk data = bs) ∧
    extractStatus row sk = "" ∧
    extractStatus row sk ≠ "failure" ∧
    (segStep dk tk sk st row).openBlock = none ∧
    (st.openBlock = none → segStep dk tk sk st row = st) ∧
    (∀ ob, st.openBlock = some ob →
      segStep dk tk sk st row = ⟨st.blocks ++ [mkBlock "Failure Block" ob], none⟩) := by
  have hstat : extractStatus row sk = "" := by simp [extractStatus, h]
  have hfail : isFailRow sk row = false := by simp [isFailRow, hstat]
  refine ⟨⟨_, rfl⟩, hstat, by rw [hstat]; decide, ?_, ?_, ?_⟩
  · rcases st with ⟨B, o⟩
    cases o with
    | none => rw [segStep_ok_none dk tk sk row hfail B]
    | some ob => rw [segStep_ok_some dk tk sk row hfail B ob]
  · rcases st with ⟨B, o⟩
    intro ho
    simp only at ho
    subst ho
    rw [segStep_ok_none dk tk sk row hfail B]
  · rcases st with ⟨B, o⟩
    intro ob ho
    simp only at ho
    subst ho
    rw [segStep_ok_some dk tk sk row hfail B ob]

/-- Witness for C7: a row carrying no status key closes the open block. -/
theorem segment_total_missing_status_witness :
    extractStatus [("Date", "x")] "Status" = "" ∧
    segStep "Date" "Time" "Status" ⟨[], some ⟨"08:00", "08:05", "01-01-2024"⟩⟩ [("Date", "x")] =
      ⟨[mkBlock "Failure Block" ⟨"08:00", "08:05", "01-01-2024"⟩], none⟩ := by
  have h := segment_total_missing_status "Date" "Time" "Status" []
    ⟨[], some ⟨"08:00", "08:05", "01-01-2024"⟩⟩ [("Date", "x")] (by decide)
  exact ⟨h.2.1, h.2.2.2.2.2 ⟨"08:00", "08:05", "01-01-2024"⟩ rfl⟩

/-- C2: a row sequence ending inside a failure run produces exactly one block
labelled "Failure Block (No trailing OK)" and it is the last block, with every
other block labelled "Failure Block"; a sequence not ending inside a failure
run produces only "Failure Block" labels. -/
theorem segment_trailing_label (dk tk sk : String) (data : List Row) :
    ((∃ r, data.getLast? = some r ∧ isFailRow sk r = true) →
      ∃ front lastb,
        segment dk tk sk data = front ++ [lastb] ∧
        lastb.status = "Failure Block (No trailing OK)" ∧
        (∀ b ∈ front, b.status = "Failure Block") ∧
        ((segment dk tk sk data).filter
            (fun b => b.status == "Failure Block (No trailing OK)")).length = 1) ∧
    ((∀ r, data.getLast? = some r → isFailRow sk r = false) →
      ∀ b ∈ segment dk tk sk data, b.status = "Failure Block") := by
  have hopen := segFold_openBlock dk tk sk data [] none
  rw [getLastD_map_getD] at hopen
  have hseg : segment dk tk sk data
      = segFlush (List.foldl (segStep dk tk sk) ⟨[], none⟩ data) := rfl
  cases hOB : (List.foldl (segStep dk tk sk) ⟨[], none⟩ data).openBlock with
  | some ob =>
    have hflush : segment dk tk sk data
        = (List.foldl (segStep dk tk sk) ⟨[], none⟩ data).blocks
            ++ [mkBlock "Failure Block (No trailing OK)" ob] := by
      rw [hseg]
      unfold segFlush
      rw [hOB]
    constructor
    · intro _
      refine ⟨(List.foldl (segStep dk tk sk) ⟨[], none⟩ data).blocks,
        mkBlock "Failure Block (No trailing OK)" ob, hflush, rfl, ?_, ?_⟩
      · intro b hb
        rcases segFold_status dk tk sk data [] none b hb with h | h
        · simp at h
        · exact h
      · rw [hflush, List.filter_append]
        have h1 : (List.foldl (segStep dk tk sk) ⟨[], none⟩ data).blocks.filter
            (fun b => b.status == "Failure Block (No trailing OK)") = [] := by
          rw [List.filter_eq_nil_iff]
          intro b hb
          rcases segFold_status dk tk sk data [] none b hb with h | h
          · simp at h
          · rw [h]; decide
        rw [h1]
        simp [mkBlock]
    · intro hlast
      exfalso
      rw [hOB] at hopen
      cases hgl : data.getLast? with
      | none => rw [hgl] at hopen; simp at hopen
      | some r =>
        rw [hgl] at hopen
        simp [hlast r hgl] at hopen
  | none =>
    have hflush : segment dk tk sk data
        = (List.foldl (segStep dk tk sk) ⟨[], none⟩ data).blocks := by
      rw [hseg]
      unfold segFlush
      rw [hOB]
    constructor
    · rintro ⟨r, hr, hfr⟩
      exfalso
      rw [hOB, hr] at hopen
      simp [hfr] at hopen
    · intro _ b hb
      rw [hflush] at hb
      rcases segFold_status dk tk sk data [] none b hb with h | h
      · simp at h
      · exact h

/-- Witness for C2: a single failure row yields one trailing-OK-missing block;
a single non-failure row yields no block with a different label. -/
theorem segment_trailing_label_witness :
    (∃ front lastb,
      segment "Date" "Time" "Status" [failRow] = front ++ [lastb] ∧
      lastb.status = "Failure Block (No trailing OK)" ∧
      (∀ b ∈ front, b.status = "Failure Block") ∧
      ((segment "Date" "Time" "Status" [failRow]).filter
          (fun b => b.status == "Failure Block (No trailing OK)")).length = 1) ∧
    (∀ b ∈ segment "Date" "Time" "Status" [okRow], b.status = "Failure Block") := by
  constructor
  · exact (segment_trailing_label "Date" "Time" "Status" [failRow]).1
      ⟨failRow, rfl, by decide⟩
  · refine (segment_trailing_label "Date" "Time" "Status" [okRow]).2 ?_
    intro r hr
    have hr' : okRow = r := by simpa using hr
    rw [← hr']
    decide

/-- C3: for a maximal run of consecutive failure rows (closed on the left by
the end of a non-failure prefix and on the right by a non-failure row or the
end of input), the emitted block at the run's position carries the first run
row's extracted time and date as startTime and date and the last run row's
extracted time as endTime; for a run of length one, startTime equals endTime,
with no comparison of time values involved. -/
theorem segment_run_boundary_fields (dk tk sk : String) (pre post : List Row)
    (h1 : Row) (tl : List Row)
    (hpre : ∀ r, pre.getLast? = some r → isFailRow sk r = false)
    (hrun : ∀ r ∈ h1 :: tl, isFailRow sk r = true)
    (hpost : ∀ r, post.head? = some r → isFailRow sk r = false) :
    ∃ b, (segment dk tk sk (pre ++ (h1 :: tl) ++ post))[countTrueRuns
        (pre.map (isFailRow sk))]? = some b ∧
      b.date = extractField h1 dk ∧
      b.startTime = extractField h1 tk ∧
      b.endTime = extractField (tl.getLastD h1) tk := by
  have hopen := segFold_openBlock dk tk sk pre [] none
  rw [getLastD_map_getD] at hopen
  have hclosed : (List.foldl (segStep dk tk sk) ⟨[], none⟩ pre).openBlock = none := by
    cases hO : (List.foldl (segStep dk tk sk) ⟨[], none⟩ pre).openBlock with
    | none => rfl
    | some ob =>
      exfalso
      rw [hO] at hopen
      cases hgl : pre.getLast? with
      | none => rw [hgl] at hopen; simp at hopen
      | some r => rw [hgl] at hopen; simp [hpre r hgl] at hopen
  have hcount := segFold_count dk tk sk pre [] none
  rw [hclosed] at hcount
  simp at hcount
  have hcount' : (List.foldl (segStep dk tk sk) ⟨[], none⟩ pre).blocks.length
      = countTrueRuns (pre.map (isFailRow sk)) := hcount
  have hfold1 : List.foldl (segStep dk tk sk) ⟨[], none⟩ pre
      = ⟨(List.foldl (segStep dk tk sk) ⟨[], none⟩ pre).blocks, none⟩ :=
    calc List.foldl (segStep dk tk sk) ⟨[], none⟩ pre
        = ⟨(List.foldl (segStep dk tk sk) ⟨[], none⟩ pre).blocks,
           (List.foldl (segStep dk tk sk) ⟨[], none⟩ pre).openBlock⟩ := rfl
      _ = ⟨(List.foldl (segStep dk tk sk) ⟨[], none⟩ pre).blocks, none⟩ := by rw [hclosed]
  have hsplit : segment dk tk sk (pre ++ (h1 :: tl) ++ post)
      = segFlush (List.foldl (segStep dk tk sk)
          (List.foldl (segStep dk tk sk)
            (List.foldl (segStep dk tk sk) ⟨[], none⟩ pre) (h1 :: tl)) post) := by
    show segFlush (List.foldl (segStep dk tk sk) ⟨[], none⟩ (pre ++ (h1 :: tl) ++ post)) = _
    rw [List.foldl_append, List.foldl_append]
  rw [hsplit, hfold1, segFold_allFail_none dk tk sk h1 tl _ hrun]
  cases post with
  | nil =>
    rw [List.foldl_nil]
    refine ⟨mkBlock "Failure Block (No trailing OK)"
      ⟨extractField h1 tk, extractField (tl.getLastD h1) tk, extractField h1 dk⟩,
      ?_, rfl, rfl, rfl⟩
    rw [show segFlush ⟨(List.foldl (segStep dk tk sk) ⟨[], none⟩ pre).blocks,
        some ⟨extractField h1 tk, extractField (tl.getLastD h1) tk, extractField h1 dk⟩⟩
      = (List.foldl (segStep dk tk sk) ⟨[], none⟩ pre).blocks
          ++ [mkBlock "Failure Block (No trailing OK)"
                ⟨extractField h1 tk, extractField (tl.getLastD h1) tk, extractField h1 dk⟩]
      from rfl]
    rw [← hcount']
    exact getElem?_append_cons _ _ []
  | cons p rest =>
    have hp : isFailRow sk p = false := hpost p rfl
    rw [List.foldl_cons, segStep_ok_some dk tk sk p hp _ _]
    rw [segFold_split dk tk sk rest _ none, segFlush_split]
    refine ⟨mkBlock "Failure Block"
      ⟨extractField h1 tk, extractField (tl.getLastD h1) tk, extractField h1 dk⟩,
      ?_, rfl, rfl, rfl⟩
    rw [← hcount']
    simp only [List.append_assoc, List.singleton_append]
    exact getElem?_append_cons _ _ _

/-- Witness for C3 at a length-one failure run flanked by non-failure rows. -/
theorem segment_run_boundary_fields_witness :
    ∃ b, (segment "Date" "Time" "Status" ([okRow] ++ [failRow] ++ [okRow]))[countTrueRuns
        ([okRow].map (isFailRow "Status"))]? = some b ∧
      b.date = extractField failRow "Date" ∧
      b.startTime = extractField failRow "Time" ∧
      b.endTime = extractField (List.getLastD [] failRow) "Time" := by
  refine segment_run_boundary_fields "Date" "Time" "Status" [okRow] [okRow] failRow [] ?_ ?_ ?_
  · intro r hr
    have hr' : okRow = r := by simpa using hr
    rw [← hr']
    decide
  · decide
  · intro r hr
    have hr' : okRow = r := by simpa using hr
    rw [← hr']
    decide

end LogAnalyser
